import Mathlib

/-!
Shallow embedding of the word-cache / command-dispatcher core of the
SlackBotRust repository (src/insult.rs), together with theorems checking the
natural-language specification's claims against it.

Modelling conventions:
* Rust `String` is Lean `String` (a packed `List Char`); Rust `Vec<String>`
  is `List String`.
* The random `choose` on a slice is modelled by an arbitrary index parameter
  reduced modulo the slice length (`chooseIdx`); an empty slice yields `none`
  exactly as `SliceRandom::choose` does.
* Fallible async calls are passed in as explicit `Except` arguments; a Rust
  panic (`unwrap` on `None`) is modelled as the `none` case of an outer
  `Option`.
* The regex character classes `\w` and `\s` are modelled by their ASCII
  fragments (the inputs in question are ASCII).
-/

namespace SlackBot

/-- ASCII fragment of the regex class `\w`: alphanumerics and underscore. -/
def isWordChar (c : Char) : Bool :=
  c.isAlphanum || c = '_'

/-- ASCII fragment of the regex class `\s` (also Rust `char::is_whitespace`
on ASCII): space, tab, newline, vertical tab, form feed, carriage return. -/
def isWs (c : Char) : Bool :=
  c = ' ' || c = '\t' || c = '\n' || c = '\x0b' || c = '\x0c' || c = '\r'

/-- Rust `str::trim`: drop whitespace from both ends (char-list form). -/
def trimChars (l : List Char) : List Char :=
  ((l.dropWhile isWs).reverse.dropWhile isWs).reverse

/-- Rust `str::trim` on packed strings. -/
def trimStr (s : String) : String :=
  (trimChars s.data).asString

/-- `enum PartOfSpeech { Noun, Adjective }` from src/insult.rs. -/
inductive PartOfSpeech where
  | noun
  | adjective
deriving DecidableEq, Repr

/-- `struct InsultFactory { nouns: Vec<String>, adjectives: Vec<String> }`. -/
structure InsultFactory where
  nouns : List String
  adjectives : List String
deriving DecidableEq, Repr

/-- The category sequence the source's `insert_word` selects by `pos`. -/
def categoryOf (f : InsultFactory) : PartOfSpeech → List String
  | .noun => f.nouns
  | .adjective => f.adjectives

/-- `SliceRandom::choose`: `none` on an empty slice, otherwise an element at
an arbitrary index (the random draw), reduced modulo the length. -/
def chooseIdx (l : List String) (i : Nat) : Option String :=
  l[i % l.length]?

/-- The article computation inside `InsultFactory::get_insult`: `"an"` when
the adjective's first character is one of `a e i o u A E I O U`, `"a"`
otherwise, and `"a"` when the adjective is empty. -/
def articleFor (adjective : String) : String :=
  match adjective.data with
  | [] => "a"
  | c :: _ =>
    if c = 'a' || c = 'e' || c = 'i' || c = 'o' || c = 'u' ||
       c = 'A' || c = 'E' || c = 'I' || c = 'O' || c = 'U'
    then "an" else "a"

/-- `InsultFactory::get_insult`, with the two random draws made explicit as
index parameters `i` (adjective) and `j` (noun). -/
def InsultFactory.get_insult (f : InsultFactory) (i j : Nat) : Option String :=
  (chooseIdx f.adjectives i).bind fun adjective =>
  (chooseIdx f.nouns j).bind fun noun =>
  some (articleFor adjective ++ " " ++ adjective ++ " " ++ noun)

/-- `InsultFactory::insert_word`: reject (returning `false`) when the word is
already in the selected category, otherwise push it and return `true`. -/
def InsultFactory.insert_word (f : InsultFactory) (pos : PartOfSpeech)
    (word : String) : InsultFactory × Bool :=
  match pos with
  | .noun =>
    if f.nouns.any (fun w => w == word) then (f, false)
    else ({ f with nouns := f.nouns ++ [word] }, true)
  | .adjective =>
    if f.adjectives.any (fun w => w == word) then (f, false)
    else ({ f with adjectives := f.adjectives ++ [word] }, true)

/-- The spec's `insert` result variants (`Inserted` / `AlreadyPresent`),
signalled in the source as the `bool` result of `insert_word`. -/
inductive InsertResult where
  | inserted
  | alreadyPresent
deriving DecidableEq, Repr

/-- The add-word path through the dispatcher: `handle_message` trims the
captured word before `handle_add_word` reaches `insert_word`.  This is the
spec's `insert(category, word)` operation. -/
def insert (f : InsultFactory) (pos : PartOfSpeech) (w : String) :
    InsultFactory × InsertResult :=
  let r := f.insert_word pos (trimStr w)
  (r.1, if r.2 then .inserted else .alreadyPresent)

/-- `to_user_tag` from src/insult.rs. -/
def to_user_tag (user_id : String) : String :=
  "<@" ++ user_id ++ ">"

/-! ## Remote store records (`fetch_insults`, `handle_add_word`) -/

/-- The only field of `rusoto_dynamodb::AttributeValue` the source reads. -/
structure AttributeValue where
  s : Option String
deriving DecidableEq, Repr

/-- A scan record, reduced to the one attribute the source looks up:
`word` models `item.get("word")`. -/
structure Item where
  word : Option AttributeValue
deriving DecidableEq, Repr

/-- The tag character `handle_add_word` appends before persisting:
`'n'` for nouns, `'a'` for adjectives. -/
def tagChar : PartOfSpeech → Char
  | .noun => 'n'
  | .adjective => 'a'

/-- The encoding `handle_add_word` persists: `insult.push(c)`. -/
def encodeWord (w : String) (pos : PartOfSpeech) : String :=
  w.push (tagChar pos)

/-- Rust `String::pop`: remove and return the last character. -/
def popChar (s : String) : String × Option Char :=
  match s.data.reverse with
  | [] => (s, none)
  | c :: rest => (String.mk rest.reverse, some c)

/-- The decoding step of `fetch_insults`: pop the final character and select
the category it names; any other outcome marks the record malformed. -/
def decodeRecord (s : String) : Option (PartOfSpeech × String) :=
  match popChar s with
  | (rest, some 'n') => some (.noun, rest)
  | (rest, some 'a') => some (.adjective, rest)
  | _ => none

/-- One iteration of the record loop in `fetch_insults`, threading
`(nouns, adjectives)` and the `discarded` counter. -/
def processItem (acc : (List String × List String) × Nat) (item : Item) :
    (List String × List String) × Nat :=
  match item.word with
  | some ⟨some str⟩ =>
    match decodeRecord str with
    | some (.noun, w) => ((acc.1.1 ++ [w], acc.1.2), acc.2)
    | some (.adjective, w) => ((acc.1.1, acc.1.2 ++ [w]), acc.2)
    | none => (acc.1, acc.2 + 1)
  | _ => (acc.1, acc.2 + 1)

/-- The record loop of `fetch_insults`: partition the scanned items into the
two categories and count the discarded (malformed) records. -/
def processItems (items : List Item) : InsultFactory × Nat :=
  let r := items.foldl processItem (([], []), 0)
  (⟨r.1.1, r.1.2⟩, r.2)

/-- The error cases `fetch_insults` can return: the `INSULT_TABLE`
environment variable being absent, or the DynamoDB scan failing. -/
inductive FetchError where
  | envMissing
  | scanFailed (e : String)
deriving DecidableEq, Repr

/-- `fetch_insults`, with its environment lookup and scan call passed in
explicitly.  `env` is `std::env::var("INSULT_TABLE")`; `scanItems` is the
`items` field of a successful `ScanOutput` (or the scan's error).  The outer
`Option` models panics: `none` is the `items.unwrap()` panic when a
successful scan carries no item list. -/
def fetch_insults (env : Option String)
    (scanItems : Except String (Option (List Item))) :
    Option (Except FetchError InsultFactory) :=
  match env with
  | none => some (.error .envMissing)
  | some _ =>
    match scanItems with
    | .error e => some (.error (.scanFailed e))
    | .ok none => none
    | .ok (some items) => some (.ok (processItems items).1)

/-- `handle_add_word`, with the DynamoDB put's outcome passed in as
`putResult` and the reply delivered as the `String` component of the result.
The source applies `?` to `insert_word_to_dynamo`, so a put error is
returned before any reply is sent. -/
def handle_add_word (f : InsultFactory) (pos : PartOfSpeech) (insult : String)
    (putResult : Except String Unit) : Except String (InsultFactory × String) :=
  let r := f.insert_word pos insult
  if !r.2 then .ok (r.1, "I already have that word!")
  else
    match putResult with
    | .error e => .error e
    | .ok () => .ok (r.1, "Added.")

/-! ## The command patterns of `handle_message`

The three regexes of `handle_message` are embedded as direct scanners over
`List Char`.  Greedy quantifiers in these patterns need no backtracking
except in the final `\s+([\w ,-]+)$` fragment (where the space character
belongs to both classes); that one fragment is embedded with the regex
engine's greedy-with-giveback behaviour spelled out. -/

/-- Match a literal character sequence at the head, returning the rest. -/
def dropLit : List Char → List Char → Option (List Char)
  | [], l => some l
  | _ :: _, [] => none
  | p :: ps, c :: cs => if p = c then dropLit ps cs else none

/-- Greedy `X+` for a character class: the maximal nonempty prefix satisfying
`p`, with the remainder; `none` when the first character fails `p`. -/
def span1 (p : Char → Bool) (l : List Char) :
    Option (List Char × List Char) :=
  let r := l.span p
  if r.1.isEmpty then none else some r

/-- The word-boundary test `\b` before a word character, given the previous
character (`none` at the start of the text). -/
def boundaryBefore : Option Char → Bool
  | none => true
  | some c => !isWordChar c

/-- The word-boundary test `\b` after a word character, given the remaining
text. -/
def boundaryAfter (l : List Char) : Bool :=
  match l.head? with
  | none => true
  | some c => !isWordChar c

/-- Pattern 1, `\binsult\s+(<@U\w+>)`, attempted at one position; returns
the capture group. -/
def p1At (prev : Option Char) (l : List Char) : Option (List Char) :=
  if !boundaryBefore prev then none else
  (dropLit "insult".data l).bind fun l =>
  (span1 isWs l).bind fun r =>
  (dropLit "<@U".data r.2).bind fun l =>
  (span1 isWordChar l).bind fun r2 =>
  (dropLit ['>'] r2.2).map fun _ => "<@U".data ++ r2.1 ++ ['>']

/-- Unanchored leftmost search for pattern 1 (`Regex::captures`). -/
def p1Scan : Option Char → List Char → Option (List Char)
  | prev, [] => p1At prev []
  | prev, c :: cs =>
    match p1At prev (c :: cs) with
    | some r => some r
    | none => p1Scan (some c) cs

/-- Pattern 2, `\binsult\s+me\b`, attempted at one position. -/
def p2At (prev : Option Char) (l : List Char) : Bool :=
  (if !boundaryBefore prev then none else
   (dropLit "insult".data l).bind fun l =>
   (span1 isWs l).bind fun r =>
   (dropLit "me".data r.2).bind fun l =>
   if boundaryAfter l then some () else none).isSome

/-- Unanchored search for pattern 2 (`Regex::is_match`). -/
def p2Scan : Option Char → List Char → Bool
  | prev, [] => p2At prev []
  | prev, c :: cs => p2At prev (c :: cs) || p2Scan (some c) cs

/-- The character class `[\w ,-]` of the add-word pattern. -/
def inCls (c : Char) : Bool :=
  isWordChar c || c = ' ' || c = ',' || c = '-'

/-- The fragment `\s+([\w ,-]+)$` of the add-word pattern, with the greedy
engine's behaviour: `\s+` takes the maximal whitespace run, then gives one
character back to the capture when the run reaches the end of the text (a
given-back character matches `[\w ,-]` only when it is a space). -/
def p3Tail (l : List Char) : Option (List Char) :=
  let r := l.span isWs
  if r.1.isEmpty then none
  else if !r.2.isEmpty then
    if r.2.all inCls then some r.2 else none
  else
    match r.1.getLast? with
    | some c => if 2 ≤ r.1.length && inCls c then some [c] else none
    | none => none

/-- The add-word pattern from `\s*` on:
`\s*add\s+(adjective|noun)\s+([\w ,-]+)$`. -/
def p3Core (l : List Char) : Option (PartOfSpeech × List Char) :=
  let l := l.dropWhile isWs
  (dropLit "add".data l).bind fun l =>
  (span1 isWs l).bind fun r =>
  match dropLit "adjective".data r.2 with
  | some l2 => (p3Tail l2).map fun cap => (.adjective, cap)
  | none =>
    (dropLit "noun".data r.2).bind fun l2 =>
    (p3Tail l2).map fun cap => (.noun, cap)

/-- Pattern 3, `^(?:<@U\w+>\s)?\s*add\s+(adjective|noun)\s+([\w ,-]+)$`:
the optional leading mention (a mention followed by one whitespace
character), then the core. -/
def p3Match (l : List Char) : Option (PartOfSpeech × List Char) :=
  let withMention :=
    (dropLit "<@U".data l).bind fun l =>
    (span1 isWordChar l).bind fun r =>
    (dropLit ['>'] r.2).bind fun l =>
    match l with
    | c :: rest => if isWs c then p3Core rest else none
    | [] => none
  match withMention with
  | some r => some r
  | none => p3Core l

/-- The spec's `CommandMatch` classification, the result of the dispatch
structure of `handle_message`. -/
inductive CommandMatch where
  | insultRequest (target : String)
  | addWord (pos : PartOfSpeech) (word : String)
  | rejectedAddWord
  | noMatch
deriving DecidableEq, Repr

/-- The command classification performed by `handle_message`: the three
patterns in order, first match winning; the add-word capture is trimmed and
an empty trimmed capture is rejected. -/
def classify (text user : String) : CommandMatch :=
  match p1Scan none text.data with
  | some cap => .insultRequest cap.asString
  | none =>
    if p2Scan none text.data then .insultRequest (to_user_tag user)
    else
      match p3Match text.data with
      | some r =>
        let w := trimChars r.2
        if w.isEmpty then .rejectedAddWord
        else .addWord r.1 w.asString
      | none => .noMatch

/-! ## Reachability and auxiliary spec-side definitions -/

/-- Apply a sequence of dispatcher-path `insert` calls to a cache. -/
def applyInserts (f : InsultFactory) : List (PartOfSpeech × String) → InsultFactory
  | [] => f
  | op :: rest => applyInserts (insert f op.1 op.2).1 rest

/-- Cache states reachable in a fresh process: an initial population from
some scanned item list, followed by any number of dispatcher inserts. -/
inductive Reachable : InsultFactory → Prop where
  | init (items : List Item) : Reachable (processItems items).1
  | step (f : InsultFactory) (pos : PartOfSpeech) (w : String) :
      Reachable f → Reachable (insert f pos w).1

/-- A remote item list carrying the same encoded adjective twice. -/
def dupItems : List Item :=
  [⟨some ⟨some "slimya"⟩⟩, ⟨some ⟨some "slimya"⟩⟩]

/-- Spec-side reading of the article rule's vowel test: the character is one
of `a e i o u` compared case-insensitively (so either its lowercase or its
uppercase form). -/
def specVowel (c : Char) : Bool :=
  (c = 'a' || c = 'e' || c = 'i' || c = 'o' || c = 'u') ||
  (c = 'A' || c = 'E' || c = 'I' || c = 'O' || c = 'U')

/-- Spec-side: the descriptor starts with a vowel (an empty descriptor does
not, giving the defensive default article `"a"`). -/
def vowelStart (s : String) : Bool :=
  match s.data with
  | [] => false
  | c :: _ => specVowel c

/-! ## Helper lemmas -/

theorem chooseIdx_eq_none_iff (l : List String) (i : Nat) :
    chooseIdx l i = none ↔ l = [] := by
  unfold chooseIdx
  constructor
  · intro h
    cases l with
    | nil => rfl
    | cons a as =>
      have hlt : i % (a :: as).length < (a :: as).length :=
        Nat.mod_lt _ (by simp)
      rw [List.getElem?_eq_getElem hlt] at h
      exact absurd h (by simp)
  · intro h
    subst h
    simp

theorem chooseIdx_mem (l : List String) (i : Nat) (x : String)
    (h : chooseIdx l i = some x) : x ∈ l := by
  unfold chooseIdx at h
  exact List.getElem?_mem h

theorem chooseIdx_of_ne_nil (l : List String) (i : Nat) (h : l ≠ []) :
    ∃ x, chooseIdx l i = some x ∧ x ∈ l := by
  cases hc : chooseIdx l i with
  | none => exact absurd ((chooseIdx_eq_none_iff l i).mp hc) h
  | some x => exact ⟨x, rfl, chooseIdx_mem l i x hc⟩

theorem articleFor_eq_ite (adjective : String) :
    articleFor adjective = if vowelStart adjective then "an" else "a" := by
  obtain ⟨d⟩ := adjective
  cases d with
  | nil => rfl
  | cons c cs =>
    simp only [articleFor, vowelStart, specVowel, Bool.or_assoc]

theorem any_beq_iff (l : List String) (w : String) :
    l.any (fun x => x == w) = true ↔ w ∈ l := by
  constructor
  · intro h
    rcases List.any_eq_true.mp h with ⟨x, hx, hbeq⟩
    exact (eq_of_beq hbeq) ▸ hx
  · intro h
    exact List.any_eq_true.mpr ⟨w, h, by simp⟩

/-! ## Claims -/

/-- C10: the remote record encoding round-trips: appending the category's
tag character (`handle_add_word`) and then popping it off and selecting the
category it names (`fetch_insults`) returns exactly the original pair. -/
theorem decode_encode_roundtrip (w : String) (pos : PartOfSpeech) :
    decodeRecord (encodeWord w pos) = some (pos, w) := by
  obtain ⟨d⟩ := w
  cases pos <;>
    simp [decodeRecord, encodeWord, popChar, String.push, tagChar]

/-- C5: `get_insult` (the spec's `pick_phrase`) returns `none` exactly when
at least one of the two categories is empty, for every cache state and every
pair of random draws. -/
theorem get_insult_none_iff (f : InsultFactory) (i j : Nat) :
    f.get_insult i j = none ↔ f.adjectives = [] ∨ f.nouns = [] := by
  unfold InsultFactory.get_insult
  rcases hA : chooseIdx f.adjectives i with _ | a
  · simp only [hA, Option.none_bind, true_iff]
    exact Or.inl ((chooseIdx_eq_none_iff _ _).mp hA)
  · rcases hN : chooseIdx f.nouns j with _ | n
    · simp only [hA, hN, Option.some_bind, Option.none_bind, true_iff]
      exact Or.inr ((chooseIdx_eq_none_iff _ _).mp hN)
    · simp only [hA, hN, Option.some_bind, Option.some_ne_none, false_iff]
      rintro (h | h)
      · rw [h] at hA
        simp [chooseIdx] at hA
      · rw [h] at hN
        simp [chooseIdx] at hN

/-- C6: with both categories non-empty, every phrase `get_insult` returns is
`"<article> <descriptor> <subject>"` with the descriptor and subject drawn
from their categories, and the article is `"an"` exactly when the
descriptor's first character is a vowel compared case-insensitively (an
empty descriptor defaults to `"a"`). -/
theorem get_insult_article (f : InsultFactory) (i j : Nat)
    (hA : f.adjectives ≠ []) (hN : f.nouns ≠ []) :
    ∃ adj noun, adj ∈ f.adjectives ∧ noun ∈ f.nouns ∧
      f.get_insult i j =
        some ((if vowelStart adj then "an" else "a") ++ " " ++ adj ++ " " ++ noun) := by
  obtain ⟨a, ha, haMem⟩ := chooseIdx_of_ne_nil f.adjectives i hA
  obtain ⟨n, hn, hnMem⟩ := chooseIdx_of_ne_nil f.nouns j hN
  refine ⟨a, n, haMem, hnMem, ?_⟩
  unfold InsultFactory.get_insult
  rw [← articleFor_eq_ite]
  simp [ha, hn]

/-- Witness for C6 at a concrete cache: descriptors `["awful"]`, subjects
`["jerk"]`. -/
theorem get_insult_article_witness :
    ∃ adj noun,
      adj ∈ (⟨["jerk"], ["awful"]⟩ : InsultFactory).adjectives ∧
      noun ∈ (⟨["jerk"], ["awful"]⟩ : InsultFactory).nouns ∧
      InsultFactory.get_insult ⟨["jerk"], ["awful"]⟩ 0 0 =
        some ((if vowelStart adj then "an" else "a") ++ " " ++ adj ++ " " ++ noun) :=
  get_insult_article ⟨["jerk"], ["awful"]⟩ 0 0 (by decide) (by decide)

/-- C3: the dispatcher-path `insert` trims the candidate; when the trimmed
value is already in the target category it returns `AlreadyPresent` and
leaves the whole state unchanged, otherwise it appends the trimmed value and
returns `Inserted`, and a second identical call then returns
`AlreadyPresent` with the category grown by exactly one element. -/
theorem insert_contract (f : InsultFactory) (pos : PartOfSpeech) (w : String) :
    (trimStr w ∈ categoryOf f pos → insert f pos w = (f, .alreadyPresent)) ∧
    (trimStr w ∉ categoryOf f pos →
      (insert f pos w).2 = .inserted ∧
      categoryOf (insert f pos w).1 pos = categoryOf f pos ++ [trimStr w] ∧
      (insert (insert f pos w).1 pos w).2 = .alreadyPresent ∧
      (categoryOf (insert (insert f pos w).1 pos w).1 pos).length =
        (categoryOf f pos).length + 1) := by
  constructor
  · intro hmem
    cases pos <;>
      simp [categoryOf] at hmem <;>
      simp [insert, InsultFactory.insert_word, categoryOf, hmem]
  · intro hmem
    cases pos <;>
      simp [categoryOf] at hmem <;>
      simp [insert, InsultFactory.insert_word, categoryOf, hmem]

/-- Witness for C3: the already-present branch on a cache holding "jerk",
and the fresh-insert branch (with trimming) on the empty cache. -/
theorem insert_contract_witness :
    insert ⟨["jerk"], []⟩ .noun "jerk" = (⟨["jerk"], []⟩, .alreadyPresent) ∧
    (insert ⟨[], []⟩ .noun " jerk ").2 = .inserted :=
  ⟨(insert_contract ⟨["jerk"], []⟩ .noun "jerk").1 (by decide),
   ((insert_contract ⟨[], []⟩ .noun " jerk ").2 (by decide)).1⟩

/-- C4, counterexample: after a successful in-memory insert of "jerk" into
the empty cache, a failing put makes `handle_add_word` return the error —
the "Added." reply is never produced, contradicting the claim that the
persistence failure is swallowed and "Added." still sent. -/
theorem handle_add_word_put_error_cex :
    handle_add_word ⟨[], []⟩ .noun "jerk" (.error "boom") = .error "boom" := by
  rfl

/-- C4, amended: when the in-memory insert succeeds and the subsequent
remote put fails, `handle_add_word` propagates the put's error (the `?`
operator on `insert_word_to_dynamo`), so no "Added." reply is sent; the
already-applied in-memory insert is not rolled back. -/
theorem handle_add_word_put_error (f : InsultFactory) (pos : PartOfSpeech)
    (w e : String) (h : (f.insert_word pos w).2 = true) :
    handle_add_word f pos w (.error e) = .error e := by
  simp [handle_add_word, h]

/-- Witness for the amended C4 at a concrete fresh word and put error. -/
theorem handle_add_word_put_error_witness :
    handle_add_word ⟨[], []⟩ .adjective "awful" (.error "boom") = .error "boom" :=
  handle_add_word_put_error ⟨[], []⟩ .adjective "awful" "boom" (by decide)

/-- C7: `classify` reproduces the literal spec scenarios, and the pattern
order (named-target, then insult-me, then add-word) decides conflicts with
the first match winning — the last two conjuncts exhibit texts matched by
two patterns where the earlier pattern's result is produced. -/
theorem classify_scenarios :
    classify "insult me" "U123" = .insultRequest "<@U123>" ∧
    classify "insult <@U456>" "U123" = .insultRequest "<@U456>" ∧
    classify "add adjective slimy" "U123" = .addWord .adjective "slimy" ∧
    classify "<@UBOT> add noun doorknob" "U123" = .addWord .noun "doorknob" ∧
    classify "add noun   " "U123" = .rejectedAddWord ∧
    classify "hello there" "U123" = .noMatch ∧
    classify "insult me and insult <@U9>" "U123" = .insultRequest "<@U9>" ∧
    classify "add noun insult me" "U123" = .insultRequest "<@U123>" := by
  refine ⟨?_, ?_, ?_, ?_, ?_, ?_, ?_, ?_⟩ <;> rfl

/-- C8, counterexample: "insult me" occurring as an interior substring of
normal conversational text still triggers `InsultRequest` for the requester
(the pattern `\binsult\s+me\b` is word-bounded but not anchored to a
trailing clause), contradicting the claim that such texts do not match. -/
theorem insult_me_interior_cex :
    classify "please do not insult me again" "U123" =
      .insultRequest "<@U123>" := by
  rfl

/-- C8, amended: the insult-me command matches as a word-bounded substring
anywhere in the text — whenever the named-target pattern fails and
`\binsult\s+me\b` occurs anywhere, `classify` produces `InsultRequest` for
the requester, with no trailing-clause anchoring. -/
theorem classify_insult_me_substring (text user : String)
    (h1 : p1Scan none text.data = none)
    (h2 : p2Scan none text.data = true) :
    classify text user = .insultRequest (to_user_tag user) := by
  simp [classify, h1, h2]

/-- Witness for the amended C8 on a mid-sentence occurrence. -/
theorem classify_insult_me_substring_witness :
    classify "I would never insult me or you" "U7" =
      .insultRequest (to_user_tag "U7") :=
  classify_insult_me_substring "I would never insult me or you" "U7"
    (by rfl) (by rfl)

theorem processItem_count (acc : (List String × List String) × Nat)
    (item : Item) :
    (processItem acc item).1.1.length + (processItem acc item).1.2.length +
      (processItem acc item).2 =
    acc.1.1.length + acc.1.2.length + acc.2 + 1 := by
  rcases item with ⟨_ | ⟨_ | str⟩⟩
  · simp [processItem]
    omega
  · simp [processItem]
    omega
  · cases hd : decodeRecord str with
    | none =>
      simp [processItem, hd]
      omega
    | some p =>
      rcases p with ⟨pos, w'⟩
      cases pos <;> simp [processItem, hd] <;> omega

theorem foldl_processItem_count (items : List Item) :
    ∀ acc : (List String × List String) × Nat,
      (items.foldl processItem acc).1.1.length +
        (items.foldl processItem acc).1.2.length +
        (items.foldl processItem acc).2 =
      acc.1.1.length + acc.1.2.length + acc.2 + items.length := by
  induction items with
  | nil => intro acc; simp
  | cons it rest ih =>
    intro acc
    simp only [List.foldl_cons, List.length_cons]
    rw [ih (processItem acc it), processItem_count]
    omega

/-- C9, counterexample: a successful scan whose `ScanOutput.items` is absent
makes `fetch_insults` panic (`items.unwrap()`, modelled as the outer
`none`), even though neither the fetch failed nor the configuration value
was missing — contradicting the claim that initialization never panics and
fails only for those two reasons. -/
theorem fetch_insults_unwrap_panic_cex :
    fetch_insults (some "insults") (.ok none) = none := by
  rfl

/-- C9, amended: `fetch_insults` fails exactly on a missing `INSULT_TABLE`
configuration value or a failed scan, and for every successful scan carrying
a *present* item list (possibly empty) it succeeds — records lacking a
usable word value or a valid category tag are skipped and counted, never
fatal (the per-item discard count plus the kept words add up to the item
count).  A successful scan with an absent item list, however, panics. -/
theorem fetch_insults_contract :
    (∀ scanItems, fetch_insults none scanItems = some (.error .envMissing)) ∧
    (∀ t e, fetch_insults (some t) (.error e) =
      some (.error (.scanFailed e))) ∧
    (∀ t items, fetch_insults (some t) (.ok (some items)) =
      some (.ok (processItems items).1)) ∧
    (∀ items, (processItems items).1.nouns.length +
      (processItems items).1.adjectives.length + (processItems items).2 =
      items.length) := by
  refine ⟨fun _ => rfl, fun _ _ => rfl, fun _ _ => rfl, fun items => ?_⟩
  simpa [processItems] using foldl_processItem_count items (([], []), 0)

theorem insert_word_preserves_nodup (f : InsultFactory) (pos : PartOfSpeech)
    (w : String) (hN : f.nouns.Nodup) (hA : f.adjectives.Nodup) :
    (f.insert_word pos w).1.nouns.Nodup ∧
    (f.insert_word pos w).1.adjectives.Nodup := by
  cases pos with
  | noun =>
    by_cases h : w ∈ f.nouns <;>
      simp [InsultFactory.insert_word, List.nodup_append, h, hN, hA]
  | adjective =>
    by_cases h : w ∈ f.adjectives <;>
      simp [InsultFactory.insert_word, List.nodup_append, h, hN, hA]

theorem inserts_preserve_nodup (ops : List (PartOfSpeech × String)) :
    ∀ f : InsultFactory, f.nouns.Nodup → f.adjectives.Nodup →
      (applyInserts f ops).nouns.Nodup ∧ (applyInserts f ops).adjectives.Nodup := by
  induction ops with
  | nil => exact fun f hN hA => ⟨hN, hA⟩
  | cons op rest ih =>
    intro f hN hA
    have h := insert_word_preserves_nodup f op.1 (trimStr op.2) hN hA
    exact ih (insert f op.1 op.2).1 h.1 h.2

/-- C1, counterexample: the state produced by initializing from a remote
item list carrying the encoded adjective "slimy" twice is reachable in a
fresh process, yet its adjectives category contains the same value twice —
the initial population performs no deduplication. -/
theorem reachable_duplicate_cex :
    Reachable (processItems dupItems).1 ∧
    ¬ (processItems dupItems).1.adjectives.Nodup :=
  ⟨Reachable.init dupItems, by decide⟩

/-- C1, amended: every `insert` call preserves the no-duplicate-within-
category invariant, so any state reached from a duplicate-free cache by a
sequence of inserts is duplicate-free; the initial population from the
remote store, however, does not deduplicate, so the invariant holds for
reachable states only when the scanned records decode to duplicate-free
categories. -/
theorem applyInserts_preserves_nodup (f : InsultFactory)
    (ops : List (PartOfSpeech × String))
    (hN : f.nouns.Nodup) (hA : f.adjectives.Nodup) :
    (applyInserts f ops).nouns.Nodup ∧
    (applyInserts f ops).adjectives.Nodup :=
  inserts_preserve_nodup ops f hN hA

/-- Witness for the amended C1 on a concrete duplicate-free cache and a
two-insert sequence repeating one word (trimmed). -/
theorem applyInserts_preserves_nodup_witness :
    (applyInserts ⟨["jerk"], ["awful"]⟩
      [(.noun, "dolt"), (.noun, " dolt ")]).nouns.Nodup ∧
    (applyInserts ⟨["jerk"], ["awful"]⟩
      [(.noun, "dolt"), (.noun, " dolt ")]).adjectives.Nodup :=
  applyInserts_preserves_nodup ⟨["jerk"], ["awful"]⟩
    [(.noun, "dolt"), (.noun, " dolt ")] (by decide) (by decide)

end SlackBot
